import Mathlib

/-!
Verification of the IP-address management core (address allocator, lease
reconciliator, hostname mapping resolver) described by the repository's
specification.  The implementation module `maasserver/models/staticipaddress.py`
is not part of the source snapshot (only its test suite is), so the operations
are modelled from the specification, with ambiguities resolved the way the
test suite in `src/src/maasserver/models/tests/test_staticipaddress.py` pins
them down.  IP addresses are modelled as natural numbers (their numeric value),
so that "ascending IP order" is the order on `Nat`.
-/

namespace Maas

/-- Address families (IPv4 / IPv6). -/
inductive Fam where
  | v4
  | v6
deriving DecidableEq

/-- Allocation kinds of address records (spec section 3): the closed set
STICKY, USER_RESERVED, AUTO, DHCP, DISCOVERED. -/
inductive AllocKind where
  | auto
  | sticky
  | userReserved
  | dhcp
  | discovered
deriving DecidableEq

namespace Alloc

/-- A pool handed to `allocate_new`: network bounds, static range and dynamic
sub-range, each as inclusive numeric bounds (spec section 4.1). -/
structure Pool where
  netLo : Nat
  netHi : Nat
  staticLo : Nat
  staticHi : Nat
  dynLo : Nat
  dynHi : Nat
deriving DecidableEq

/-- Membership of an address in the pool's network. -/
abbrev inNetwork (p : Pool) (a : Nat) : Prop := p.netLo ≤ a ∧ a ≤ p.netHi

/-- Membership of an address in the pool's static range. -/
abbrev inStatic (p : Pool) (a : Nat) : Prop := p.staticLo ≤ a ∧ a ≤ p.staticHi

/-- Membership of an address in the pool's dynamic sub-range. -/
abbrev inDynamic (p : Pool) (a : Nat) : Prop := p.dynLo ≤ a ∧ a ≤ p.dynHi

/-- A pool is valid when both ranges are well ordered and inside the network. -/
abbrev validPool (p : Pool) : Prop :=
  p.netLo ≤ p.staticLo ∧ p.staticLo ≤ p.staticHi ∧ p.staticHi ≤ p.netHi ∧
  p.netLo ≤ p.dynLo ∧ p.dynLo ≤ p.dynHi ∧ p.dynHi ≤ p.netHi

/-- Reason carried by an `OutOfRange` failure: it states which constraint was
violated and cites the offending bounds (spec section 7 says the message is
surfaced verbatim with the offending bounds; the test suite fixes the two
message shapes "is not inside the network" and "is inside the dynamic range"). -/
inductive OutOfRangeReason where
  | notInNetwork (addr netLo netHi : Nat)
  | inDynamicRange (addr dynLo dynHi : Nat)
  | notInStaticRange (addr staticLo staticHi : Nat)
deriving DecidableEq

/-- The allocator's error taxonomy (spec section 7).  `addressesExhausted`
carries the static bounds its message cites. -/
inductive AllocError where
  | invalidAllocationKind
  | invalidAllocationRequest
  | outOfRange (reason : OutOfRangeReason)
  | addressUnavailable
  | addressesExhausted (staticLo staticHi : Nat)
  | writeConflict
deriving DecidableEq

/-- Events on the process-wide static-IP allocation lock. -/
inductive LockEvent where
  | acquire
  | release
deriving DecidableEq

/-- A freshly created address record. -/
structure AllocRecord where
  ip : Nat
  kind : AllocKind
  user : Option Nat
deriving DecidableEq

/-- DHCP and DISCOVERED are not directly allocatable (spec section 4.1). -/
def kindAllowed : AllocKind → Bool
  | .dhcp => false
  | .discovered => false
  | _ => true

/-- A principal is required iff the kind is USER_RESERVED and forbidden
otherwise (spec section 4.1). -/
def userMatches : AllocKind → Option Nat → Bool
  | .userReserved, some _ => true
  | .userReserved, none => false
  | _, none => true
  | _, some _ => false

/-- A static-range value is a candidate when it is outside the dynamic
sub-range and not held by an existing record in the search snapshot. -/
def freeCandidate (p : Pool) (snapshot : List Nat) (a : Nat) : Bool :=
  decide (¬ inDynamic p a) && decide (a ∉ snapshot)

/-- Search of the static range, excluding the dynamic sub-range, in ascending
numeric address order, for the first free value (spec section 4.1). -/
def searchFree (p : Pool) (snapshot : List Nat) : Option Nat :=
  (List.range' p.staticLo (p.staticHi + 1 - p.staticLo)).find? (freeCandidate p snapshot)

/-- Only a store-level write conflict is retryable (spec section 7). -/
def retryable : AllocError → Bool
  | .writeConflict => true
  | _ => false

/-- Modelled from the spec: operation `allocate` of section 4.1 (the source
file `maasserver/models/staticipaddress.py` defining `allocate_new` is not in
the snapshot).  `snapshot` is the set of taken addresses the free search
sees; `committed` is the authoritative set the insert is checked against, so
a value free in `snapshot` but present in `committed` models a competing
allocation committed between search and insert, surfaced as the retryable
`writeConflict`.  The second component is the trace of events on the
process-wide allocation lock, which guards only the free-search path and is
released on every exit of that path.  Validation order (kind, principal,
network, dynamic range, static range, availability) follows the spec's
listing and the error messages fixed by the tests. -/
def allocate (p : Pool) (kind : AllocKind) (user : Option Nat) (req : Option Nat)
    (snapshot committed : List Nat) : Except AllocError AllocRecord × List LockEvent :=
  if kindAllowed kind = false then
    (.error .invalidAllocationKind, [])
  else if userMatches kind user = false then
    (.error .invalidAllocationRequest, [])
  else
    match req with
    | some a =>
      if ¬ inNetwork p a then
        (.error (.outOfRange (.notInNetwork a p.netLo p.netHi)), [])
      else if inDynamic p a then
        (.error (.outOfRange (.inDynamicRange a p.dynLo p.dynHi)), [])
      else if ¬ inStatic p a then
        (.error (.outOfRange (.notInStaticRange a p.staticLo p.staticHi)), [])
      else if a ∈ committed then
        (.error .addressUnavailable, [])
      else
        (.ok ⟨a, kind, user⟩, [])
    | none =>
      match searchFree p snapshot with
      | none => (.error (.addressesExhausted p.staticLo p.staticHi), [.acquire, .release])
      | some a =>
        if a ∈ committed then
          (.error .writeConflict, [.acquire, .release])
        else
          (.ok ⟨a, kind, user⟩, [.acquire, .release])

/-- The committed store after an allocation result: a row is inserted on
success, nothing on failure. -/
def postCommitted (committed : List Nat) : Except AllocError AllocRecord → List Nat
  | .ok r => r.ip :: committed
  | .error _ => committed

theorem freeCandidate_iff {p : Pool} {snapshot : List Nat} {a : Nat} :
    freeCandidate p snapshot a = true ↔ ¬ inDynamic p a ∧ a ∉ snapshot := by
  unfold freeCandidate
  rw [Bool.and_eq_true, decide_eq_true_iff, decide_eq_true_iff]

theorem allocate_requested_eq (p : Pool) (kind : AllocKind) (user : Option Nat) (a : Nat)
    (snapshot committed : List Nat)
    (hk : kindAllowed kind = true) (hu : userMatches kind user = true) :
    allocate p kind user (some a) snapshot committed =
      (if ¬ inNetwork p a then
        (.error (.outOfRange (.notInNetwork a p.netLo p.netHi)), [])
      else if inDynamic p a then
        (.error (.outOfRange (.inDynamicRange a p.dynLo p.dynHi)), [])
      else if ¬ inStatic p a then
        (.error (.outOfRange (.notInStaticRange a p.staticLo p.staticHi)), [])
      else if a ∈ committed then
        (.error .addressUnavailable, [])
      else
        (.ok ⟨a, kind, user⟩, [])) := by
  unfold allocate
  rw [if_neg (by simp [hk]), if_neg (by simp [hu])]

theorem mem_range'_iff {s n m : Nat} : m ∈ List.range' s n ↔ s ≤ m ∧ m < s + n := by
  rw [List.mem_range']
  constructor
  · rintro ⟨i, hi, rfl⟩
    omega
  · rintro ⟨h1, h2⟩
    exact ⟨m - s, by omega, by omega⟩

theorem find?_range'_min {p : Nat → Bool} :
    ∀ {n s a : Nat}, (List.range' s n).find? p = some a →
      p a = true ∧ a ∈ List.range' s n ∧ ∀ b ∈ List.range' s n, p b = true → a ≤ b := by
  intro n
  induction n with
  | zero =>
    intro s a h
    simp at h
  | succ n ih =>
    intro s a h
    rw [List.range'_succ] at h
    by_cases hp : p s
    · rw [List.find?_cons_of_pos _ hp] at h
      cases h
      refine ⟨hp, ?_, ?_⟩
      · rw [List.range'_succ]
        exact List.mem_cons_self _ _
      · intro b hb _
        rw [List.range'_succ] at hb
        rcases List.mem_cons.mp hb with rfl | hb
        · exact Nat.le_refl _
        · have := mem_range'_iff.mp hb
          omega
    · rw [List.find?_cons_of_neg _ hp] at h
      obtain ⟨h1, h2, h3⟩ := ih h
      refine ⟨h1, ?_, ?_⟩
      · rw [List.range'_succ]
        exact List.mem_cons_of_mem _ h2
      · intro b hb hpb
        rw [List.range'_succ] at hb
        rcases List.mem_cons.mp hb with rfl | hb
        · exact absurd hpb (by simpa using hp)
        · exact h3 b hb hpb

theorem inStatic_mem_range' {p : Pool} {b : Nat} (hb : inStatic p b) :
    b ∈ List.range' p.staticLo (p.staticHi + 1 - p.staticLo) := by
  rw [mem_range'_iff]
  obtain ⟨h1, h2⟩ := hb
  omega

theorem mem_range'_inStatic {p : Pool} {b : Nat} (hp : p.staticLo ≤ p.staticHi)
    (hb : b ∈ List.range' p.staticLo (p.staticHi + 1 - p.staticLo)) : inStatic p b := by
  rw [mem_range'_iff] at hb
  exact ⟨hb.1, by omega⟩

/-- C1: for every valid pool, `allocate` without a requested address returns an
address inside the static range and outside the dynamic sub-range, and the
chosen address is the first free value in ascending numeric IP order (the
order on `Nat`, not a lexicographic string order); when no free value remains
in the static range it fails with `addressesExhausted` citing the static
bounds. -/
theorem allocate_free_range_and_order
    (p : Pool) (kind : AllocKind) (user : Option Nat) (taken : List Nat)
    (hp : validPool p) (hk : kindAllowed kind = true) (hu : userMatches kind user = true) :
    ((∃ b, inStatic p b ∧ ¬ inDynamic p b ∧ b ∉ taken) →
      ∃ r, (allocate p kind user none taken taken).1 = .ok r ∧
        inStatic p r.ip ∧ ¬ inDynamic p r.ip ∧ r.ip ∉ taken ∧
        (∀ b, inStatic p b → ¬ inDynamic p b → b ∉ taken → r.ip ≤ b) ∧
        r.kind = kind ∧ r.user = user)
    ∧ ((∀ b, inStatic p b → ¬ inDynamic p b → b ∉ taken → False) →
      (allocate p kind user none taken taken).1 =
        .error (.addressesExhausted p.staticLo p.staticHi)) := by
  constructor
  · rintro ⟨b, hbs, hbd, hbt⟩
    cases hfind : searchFree p taken with
    | none =>
      exfalso
      unfold searchFree at hfind
      rw [List.find?_eq_none] at hfind
      exact hfind b (inStatic_mem_range' hbs) (freeCandidate_iff.mpr ⟨hbd, hbt⟩)
    | some a =>
      obtain ⟨hpa, hmem, hmin⟩ := find?_range'_min (by simpa [searchFree] using hfind)
      have hain : inStatic p a := mem_range'_inStatic hp.2.1 hmem
      have hand : ¬ inDynamic p a ∧ a ∉ taken := freeCandidate_iff.mp hpa
      refine ⟨⟨a, kind, user⟩, ?_, hain, hand.1, hand.2, ?_, rfl, rfl⟩
      · unfold allocate
        rw [if_neg (by simp [hk]), if_neg (by simp [hu]), hfind]
        simp [hand.2]
      · intro c hc1 hc2 hc3
        exact hmin c (inStatic_mem_range' hc1) (freeCandidate_iff.mpr ⟨hc2, hc3⟩)
  · intro hnone
    have hfind : searchFree p taken = none := by
      unfold searchFree
      rw [List.find?_eq_none]
      intro x hx hpx
      have hxs : inStatic p x := mem_range'_inStatic hp.2.1 hx
      have hpx2 : ¬ inDynamic p x ∧ x ∉ taken := freeCandidate_iff.mp hpx
      exact hnone x hxs hpx2.1 hpx2.2
    unfold allocate
    rw [if_neg (by simp [hk]), if_neg (by simp [hu]), hfind]

theorem allocate_free_range_and_order_witness :
    validPool ⟨0, 10, 2, 5, 4, 5⟩ ∧
    (∃ r, (allocate ⟨0, 10, 2, 5, 4, 5⟩ .auto none none [2] [2]).1 = .ok r ∧
      inStatic ⟨0, 10, 2, 5, 4, 5⟩ r.ip ∧ ¬ inDynamic ⟨0, 10, 2, 5, 4, 5⟩ r.ip ∧
      r.ip ∉ [2] ∧
      (∀ b, inStatic ⟨0, 10, 2, 5, 4, 5⟩ b → ¬ inDynamic ⟨0, 10, 2, 5, 4, 5⟩ b →
        b ∉ [2] → r.ip ≤ b) ∧
      r.kind = .auto ∧ r.user = none) :=
  ⟨by decide,
   (allocate_free_range_and_order ⟨0, 10, 2, 5, 4, 5⟩ .auto none [2]
     (by decide) rfl rfl).1 ⟨3, by decide, by decide, by decide⟩⟩

/-- C2: `allocate` with a requested address returns a record bound to exactly
that address when it is inside the network, inside the static range, outside
the dynamic sub-range and not already held; it fails with `outOfRange` (the
reason stating which constraint was violated) when the address is outside the
network or inside the dynamic sub-range, and with `addressUnavailable` when a
record already holds it, so requesting the same free address twice yields it
first and `addressUnavailable` second. -/
theorem allocate_requested_behaviour
    (p : Pool) (kind : AllocKind) (user : Option Nat) (a : Nat)
    (snapshot committed : List Nat)
    (hk : kindAllowed kind = true) (hu : userMatches kind user = true) :
    ((inNetwork p a ∧ inStatic p a ∧ ¬ inDynamic p a ∧ a ∉ committed) →
       (allocate p kind user (some a) snapshot committed).1 = .ok ⟨a, kind, user⟩)
    ∧ (¬ inNetwork p a →
       (allocate p kind user (some a) snapshot committed).1 =
         .error (.outOfRange (.notInNetwork a p.netLo p.netHi)))
    ∧ ((inNetwork p a ∧ inDynamic p a) →
       (allocate p kind user (some a) snapshot committed).1 =
         .error (.outOfRange (.inDynamicRange a p.dynLo p.dynHi)))
    ∧ ((inNetwork p a ∧ inStatic p a ∧ ¬ inDynamic p a ∧ a ∈ committed) →
       (allocate p kind user (some a) snapshot committed).1 = .error .addressUnavailable)
    ∧ ((inNetwork p a ∧ inStatic p a ∧ ¬ inDynamic p a ∧ a ∉ committed) →
       (allocate p kind user (some a) snapshot committed).1 = .ok ⟨a, kind, user⟩ ∧
       (allocate p kind user (some a) snapshot
         (postCommitted committed (allocate p kind user (some a) snapshot committed).1)).1 =
           .error .addressUnavailable) := by
  have hok : ∀ committed2 : List Nat,
      (inNetwork p a ∧ inStatic p a ∧ ¬ inDynamic p a ∧ a ∉ committed2) →
      (allocate p kind user (some a) snapshot committed2).1 = .ok ⟨a, kind, user⟩ := by
    rintro committed2 ⟨h1, h2, h3, h4⟩
    rw [allocate_requested_eq p kind user a snapshot committed2 hk hu,
      if_neg (not_not_intro h1), if_neg h3, if_neg (not_not_intro h2), if_neg h4]
  refine ⟨hok committed, ?_, ?_, ?_, ?_⟩
  · intro h1
    rw [allocate_requested_eq p kind user a snapshot committed hk hu, if_pos h1]
  · rintro ⟨h1, h2⟩
    rw [allocate_requested_eq p kind user a snapshot committed hk hu,
      if_neg (not_not_intro h1), if_pos h2]
  · rintro ⟨h1, h2, h3, h4⟩
    rw [allocate_requested_eq p kind user a snapshot committed hk hu,
      if_neg (not_not_intro h1), if_neg h3, if_neg (not_not_intro h2), if_pos h4]
  · rintro ⟨h1, h2, h3, h4⟩
    refine ⟨hok committed ⟨h1, h2, h3, h4⟩, ?_⟩
    rw [hok committed ⟨h1, h2, h3, h4⟩]
    show (allocate p kind user (some a) snapshot (a :: committed)).1 = .error .addressUnavailable
    rw [allocate_requested_eq p kind user a snapshot (a :: committed) hk hu,
      if_neg (not_not_intro h1), if_neg h3, if_neg (not_not_intro h2),
      if_pos (List.mem_cons_self a committed)]

theorem allocate_requested_behaviour_witness :
    (allocate ⟨0, 10, 2, 5, 4, 5⟩ .sticky none (some 3) [] []).1 = .ok ⟨3, .sticky, none⟩ ∧
    (allocate ⟨0, 10, 2, 5, 4, 5⟩ .sticky none (some 3) []
      (postCommitted [] (allocate ⟨0, 10, 2, 5, 4, 5⟩ .sticky none (some 3) [] []).1)).1 =
        .error .addressUnavailable :=
  (allocate_requested_behaviour ⟨0, 10, 2, 5, 4, 5⟩ .sticky none 3 [] [] rfl rfl).2.2.2.2
    ⟨by decide, by decide, by decide, by decide⟩

/-- C5 counterexample: the claim states that supplying a principal with any
kind other than USER_RESERVED fails with `invalidAllocationRequest`; at kind
DHCP with a principal the allocator instead rejects the kind itself with
`invalidAllocationKind` (as the claim's own first conjunct demands
"regardless of the other arguments"), which is a different error. -/
theorem allocate_kind_precedence_counterexample :
    (allocate ⟨0, 10, 2, 5, 4, 5⟩ .dhcp (some 7) none [] []).1 =
      .error .invalidAllocationKind ∧
    AllocError.invalidAllocationKind ≠ AllocError.invalidAllocationRequest :=
  ⟨rfl, by decide⟩

/-- C5 (amended): allocation kinds DHCP and DISCOVERED are rejected with
`invalidAllocationKind` regardless of the other arguments; USER_RESERVED with
no principal fails with `invalidAllocationRequest`; supplying a principal with
kind STICKY or AUTO (the allocatable kinds other than USER_RESERVED) fails
with `invalidAllocationRequest`; in every failing case no record is created. -/
theorem allocate_invalid_args_rejected
    (p : Pool) (kind : AllocKind) (user : Option Nat) (req : Option Nat)
    (snapshot committed : List Nat) :
    ((kind = .dhcp ∨ kind = .discovered) →
       (allocate p kind user req snapshot committed).1 = .error .invalidAllocationKind)
    ∧ ((kind = .userReserved ∧ user = none) →
       (allocate p kind user req snapshot committed).1 = .error .invalidAllocationRequest)
    ∧ (((kind = .sticky ∨ kind = .auto) ∧ ∃ u, user = some u) →
       (allocate p kind user req snapshot committed).1 = .error .invalidAllocationRequest)
    ∧ (∀ e, (allocate p kind user req snapshot committed).1 = .error e →
       postCommitted committed (allocate p kind user req snapshot committed).1 = committed) := by
  refine ⟨?_, ?_, ?_, ?_⟩
  · rintro (rfl | rfl) <;> simp [allocate, kindAllowed]
  · rintro ⟨rfl, rfl⟩
    simp [allocate, kindAllowed, userMatches]
  · rintro ⟨rfl | rfl, u, rfl⟩ <;> simp [allocate, kindAllowed, userMatches]
  · intro e he
    rw [he]
    rfl

theorem allocate_invalid_args_rejected_witness :
    (allocate ⟨0, 10, 2, 5, 4, 5⟩ .userReserved none none [] []).1 =
      .error .invalidAllocationRequest :=
  (allocate_invalid_args_rejected ⟨0, 10, 2, 5, 4, 5⟩ .userReserved none none [] []).2.1
    ⟨rfl, rfl⟩

/-- C6: when the free-search path's chosen address is already present in the
committed store at insert time (a competing allocation committed between
search and insert), the failure is the retryable `writeConflict`, distinct
from `addressesExhausted`, the store is left unchanged and the allocator
itself performs no retry. -/
theorem allocate_conflict_retryable
    (p : Pool) (kind : AllocKind) (user : Option Nat) (snapshot committed : List Nat) (a : Nat)
    (hk : kindAllowed kind = true) (hu : userMatches kind user = true)
    (hs : searchFree p snapshot = some a) (hc : a ∈ committed) :
    (allocate p kind user none snapshot committed).1 = .error .writeConflict
    ∧ retryable .writeConflict = true
    ∧ (∀ lo hi, AllocError.writeConflict ≠ AllocError.addressesExhausted lo hi)
    ∧ postCommitted committed (allocate p kind user none snapshot committed).1 = committed := by
  have h1 : (allocate p kind user none snapshot committed).1 = .error .writeConflict := by
    simp [allocate, hk, hu, hs, hc]
  exact ⟨h1, rfl, fun lo hi h => AllocError.noConfusion h, by rw [h1]; rfl⟩

theorem allocate_conflict_retryable_witness :
    (allocate ⟨0, 10, 2, 5, 4, 5⟩ .auto none none [] [2]).1 = .error .writeConflict ∧
    postCommitted [2] (allocate ⟨0, 10, 2, 5, 4, 5⟩ .auto none none [] [2]).1 = [2] :=
  ⟨(allocate_conflict_retryable ⟨0, 10, 2, 5, 4, 5⟩ .auto none [] [2] 2
      rfl rfl (by decide) (by decide)).1,
   (allocate_conflict_retryable ⟨0, 10, 2, 5, 4, 5⟩ .auto none [] [2] 2
      rfl rfl (by decide) (by decide)).2.2.2⟩

/-- C7: `allocate` without a requested address acquires the process-wide
static-IP allocation lock exactly once for the search-plus-insert window and
releases it on exit (on every outcome of that path); with a requested address
it never touches the lock. -/
theorem allocate_lock_discipline
    (p : Pool) (kind : AllocKind) (user : Option Nat) (snapshot committed : List Nat)
    (hk : kindAllowed kind = true) (hu : userMatches kind user = true) :
    (allocate p kind user none snapshot committed).2 = [.acquire, .release]
    ∧ ∀ (k2 : AllocKind) (u2 : Option Nat) (a : Nat),
        (allocate p k2 u2 (some a) snapshot committed).2 = [] := by
  constructor
  · simp only [allocate, hk, hu]
    cases hsf : searchFree p snapshot with
    | none => simp
    | some a =>
      by_cases hc : a ∈ committed <;> simp [hc]
  · intro k2 u2 a
    simp only [allocate]
    split_ifs <;> rfl

theorem allocate_lock_discipline_witness :
    (allocate ⟨0, 10, 2, 5, 4, 5⟩ .auto none none [] []).2 = [.acquire, .release] ∧
    (allocate ⟨0, 10, 2, 5, 4, 5⟩ .auto none (some 3) [] []).2 = [] :=
  ⟨(allocate_lock_discipline ⟨0, 10, 2, 5, 4, 5⟩ .auto none [] [] rfl rfl).1,
   (allocate_lock_discipline ⟨0, 10, 2, 5, 4, 5⟩ .auto none [] [] rfl rfl).2 .auto none 3⟩

end Alloc

namespace Lease

/-- Kinds of network interfaces (spec section 3). -/
inductive IfKind where
  | physical
  | bond
  | vlan
  | bridge
  | unknown
deriving DecidableEq

/-- A subnet: identifier, address family, and inclusive numeric bounds. -/
structure Subnet where
  sid : Nat
  fam : Fam
  lo : Nat
  hi : Nat
deriving DecidableEq

/-- A network interface: identifier, hardware (MAC) address, kind, and the
allocation scope (node group) it belongs to, `none` for placeholder
interfaces that belong to no host. -/
structure Iface where
  ifId : Nat
  mac : Nat
  kind : IfKind
  group : Option Nat
deriving DecidableEq

/-- An address record: identifier, optional address value, allocation kind,
the subnet it is linked to, and the interfaces it is attached to. -/
structure SRec where
  rid : Nat
  value : Option Nat
  kind : AllocKind
  subnet : Subnet
  ifaceIds : List Nat
deriving DecidableEq

/-- An allocation scope (one node group): its identifier and the subnets it
manages. -/
structure Scope where
  gid : Nat
  subnets : List Subnet
deriving DecidableEq

/-- The stored address/interface graph, with fresh-identifier counters. -/
structure LeaseState where
  ifaces : List Iface
  records : List SRec
  nextIfId : Nat
  nextRid : Nat
deriving DecidableEq

/-- Addresses appearing in a lease snapshot (the snapshot is a list of
(address, hardware address) pairs). -/
def leaseAddrs (leases : List (Nat × Nat)) : List Nat := leases.map Prod.fst

/-- Whether a subnet is one of the scope's subnets (by identifier). -/
def subnetInScope (scope : Scope) (sn : Subnet) : Bool :=
  scope.subnets.any (fun s2 => decide (s2.sid = sn.sid))

/-- The interface kinds whose DISCOVERED records the clearing pass examines
(spec section 4.2 step 1: "whose interface is 'unknown' (placeholder) or
physical"). -/
def unknownOrPhysical : IfKind → Bool
  | .unknown => true
  | .physical => true
  | _ => false

/-- A DISCOVERED record under the scope, attached to an "unknown" or physical
interface, whose non-empty value does not appear in the lease snapshot. -/
def staleRecord (scope : Scope) (leases : List (Nat × Nat)) (ifaces : List Iface)
    (r : SRec) : Bool :=
  decide (r.kind = .discovered) && subnetInScope scope r.subnet &&
    (match r.value with
     | some a => decide (a ∉ leaseAddrs leases)
     | none => false) &&
    ifaces.any (fun i => r.ifaceIds.contains i.ifId && unknownOrPhysical i.kind)

/-- A record referenced by no interface other than "unknown" placeholders. -/
def refsOnlyUnknown (ifaces : List Iface) (r : SRec) : Bool :=
  ifaces.all (fun i => ! r.ifaceIds.contains i.ifId || decide (i.kind = .unknown))

/-- A stale record deleted by the clearing pass: no interface other than
placeholders still references it (spec section 4.2 step 1's "retain the
record if other interfaces still reference it; otherwise delete it"). -/
def droppedRecord (scope : Scope) (leases : List (Nat × Nat)) (ifaces : List Iface)
    (r : SRec) : Bool :=
  staleRecord scope leases ifaces r && refsOnlyUnknown ifaces r

/-- The record list after the clearing pass: dropped records are removed and
the remaining stale records have their value cleared to empty, keeping their
subnet link. -/
def clearStale (scope : Scope) (leases : List (Nat × Nat)) (ifaces : List Iface)
    (rs : List SRec) : List SRec :=
  (rs.filter (fun r => ! droppedRecord scope leases ifaces r)).map
    (fun r => if staleRecord scope leases ifaces r then { r with value := none } else r)

/-- An "unknown" placeholder interface that the clearing pass leaves orphaned:
it carried a stale record and no record surviving the pass (an emptied but
retained record counts) references it any more. -/
def orphanUnknown (scope : Scope) (leases : List (Nat × Nat)) (st : LeaseState)
    (i : Iface) : Bool :=
  decide (i.kind = .unknown) &&
    st.records.any (fun r =>
      staleRecord scope leases st.ifaces r && r.ifaceIds.contains i.ifId) &&
    (clearStale scope leases st.ifaces st.records).all
      (fun r => ! r.ifaceIds.contains i.ifId)

/-- Modelled from the spec: step 1 of `reconcile`/`update_leases` (spec
section 4.2; the implementing source file is not in the snapshot).  Every
DISCOVERED record under the scope whose interface is an "unknown" placeholder
or physical and whose value does not appear in the snapshot has its value
cleared to empty, keeping its subnet link; the record is retained if
interfaces other than placeholders still reference it and deleted otherwise;
an "unknown" placeholder interface left with no remaining address records is
deleted too (the tests `test_update_leases_clears_lease` and
`test_update_leases_drop_lease_and_unknown_interface` pin how records on
physical and on placeholder interfaces part ways). -/
def removeLeases (scope : Scope) (leases : List (Nat × Nat)) (st : LeaseState) : LeaseState :=
  { st with
      ifaces := st.ifaces.filter (fun i => ! orphanUnknown scope leases st i),
      records := clearStale scope leases st.ifaces st.records }

/-- First subnet of the scope containing an address. -/
def findSubnet (scope : Scope) (a : Nat) : Option Subnet :=
  scope.subnets.find? (fun sn => decide (sn.lo ≤ a ∧ a ≤ sn.hi))

/-- Attach an interface to the record with the given identifier. -/
def attachIface (rid ifId : Nat) (rs : List SRec) : List SRec :=
  rs.map fun r => if r.rid = rid then { r with ifaceIds := r.ifaceIds ++ [ifId] } else r

/-- Set the value of the record with the given identifier. -/
def setValue (rid : Nat) (a : Nat) (rs : List SRec) : List SRec :=
  rs.map fun r => if r.rid = rid then { r with value := some a } else r

/-- Modelled from the spec: the address half of step 2 of `reconcile` (spec
section 4.2).  If a DISCOVERED record under the scope already carries the
lease address, the resolved interface is attached to it (merge — the mapping
is interface-keyed and one address may end up attached to several
interfaces, as `test_update_leases_one_ip_two_mac` pins).  Otherwise an
empty-valued DISCOVERED record on that interface for the subnet of the lease
address is found — an emptied record keeps its subnet link so it can be
reused without a fresh subnet lookup (spec step 4) — or created, and its
value is set. -/
def processAddr (scope : Scope) (sn : Subnet) (ifId : Nat) (st : LeaseState) (a : Nat) :
    LeaseState :=
  match st.records.find? (fun r =>
      decide (r.kind = .discovered) && decide (r.value = some a) &&
        subnetInScope scope r.subnet) with
  | some r =>
    if ifId ∈ r.ifaceIds then st
    else { st with records := attachIface r.rid ifId st.records }
  | none =>
    match st.records.find? (fun r =>
        decide (r.kind = .discovered) && decide (r.value = none) &&
          r.ifaceIds.contains ifId && decide (r.subnet.sid = sn.sid)) with
    | some r =>
      { st with records := setValue r.rid a st.records }
    | none =>
      { st with
          records := st.records ++ [⟨st.nextRid, some a, .discovered, sn, [ifId]⟩],
          nextRid := st.nextRid + 1 }

/-- Modelled from the spec: one (address, hardware address) pair of step 2 of
`reconcile` (spec section 4.2).  The interface is resolved by hardware
address; the resolution is global, not restricted to the scope, and an
"unknown" placeholder interface is created only when no interface at all has
that hardware address (the test
`test_update_leases_new_ip_existing_mac_different_nodegroup` pins the global
lookup).  A pair whose address lies in no scope subnet is ignored. -/
def processLease (scope : Scope) (st : LeaseState) (lease : Nat × Nat) : LeaseState :=
  match findSubnet scope lease.1 with
  | none => st
  | some sn =>
    match st.ifaces.find? (fun i => decide (i.mac = lease.2)) with
    | some i => processAddr scope sn i.ifId st lease.1
    | none =>
      processAddr scope sn st.nextIfId
        { st with
            ifaces := st.ifaces ++ [⟨st.nextIfId, lease.2, .unknown, none⟩],
            nextIfId := st.nextIfId + 1 }
        lease.1

/-- Modelled from the spec: operation `reconcile(scope, leases)` of spec
section 4.2 (`update_leases`; the implementing source file is not in the
snapshot): first retire stored DISCOVERED values absent from the snapshot,
then work every (address, hardware address) pair of the snapshot into the
graph. -/
def updateLeases (scope : Scope) (leases : List (Nat × Nat)) (st : LeaseState) : LeaseState :=
  leases.foldl (processLease scope) (removeLeases scope leases st)

/-- A record targeted by the clean-up: DISCOVERED, attached to the given
interface, of the given address family (the family of the record's subnet)
and not protected by `dontDelete`. -/
def cleanTarget (ifId : Nat) (fam : Fam) (dontDelete : List Nat) (r : SRec) : Bool :=
  decide (r.kind = .discovered) && r.ifaceIds.contains ifId &&
    decide (r.subnet.fam = fam) && ! dontDelete.contains r.rid

/-- Effect of the clean-up on one record: a targeted record is detached from
the interface, and deleted outright when no other interface references it;
any other record is kept as it is. -/
def cleanStep (ifId : Nat) (fam : Fam) (dontDelete : List Nat) (r : SRec) : Option SRec :=
  if cleanTarget ifId fam dontDelete r then
    if r.ifaceIds.any (fun x => decide (x ≠ ifId)) then
      some { r with ifaceIds := r.ifaceIds.filter (fun x => decide (x ≠ ifId)) }
    else none
  else some r

/-- Modelled from the spec: helper `_clean_discovered_ip_addresses_on_interface`
(its implementing source file is not in the snapshot; its behaviour is pinned
by its four tests).  Every DISCOVERED record of the given address family
attached to the given interface, except those listed in `dontDelete`, is
detached from that interface, and deleted outright when no other interface
references it. -/
def cleanDiscoveredOnIface (st : LeaseState) (ifId : Nat) (fam : Fam)
    (dontDelete : List Nat) : LeaseState :=
  { st with records := st.records.filterMap (cleanStep ifId fam dontDelete) }

/-- Well-formedness of a stored graph: identifier counters bound all stored
identifiers, attachments reference stored interfaces, and identifiers are
unique. -/
abbrev wfState (st : LeaseState) : Prop :=
  (∀ i ∈ st.ifaces, i.ifId < st.nextIfId) ∧
  (∀ r ∈ st.records, r.rid < st.nextRid) ∧
  (∀ r ∈ st.records, ∀ x ∈ r.ifaceIds, ∃ i ∈ st.ifaces, i.ifId = x) ∧
  (st.ifaces.map (·.ifId)).Nodup ∧
  (st.records.map (·.rid)).Nodup

theorem cleanStep_of_other_family {ifId : Nat} {fam : Fam} {dontDelete : List Nat}
    {r : SRec} (hfam : r.subnet.fam ≠ fam) :
    cleanStep ifId fam dontDelete r = some r := by
  unfold cleanStep
  rw [if_neg]
  simp [cleanTarget, hfam]

/-- C10: the clean-up of DISCOVERED addresses on an interface is scoped to one
address family: cleaning for one family leaves every record of the other
family (its value, subnet and attachments) exactly as it was, in both
directions of membership. -/
theorem cleanDiscovered_family_frame
    (st : LeaseState) (ifId : Nat) (fam : Fam) (dontDelete : List Nat)
    (r : SRec) (hfam : r.subnet.fam ≠ fam) :
    r ∈ st.records ↔ r ∈ (cleanDiscoveredOnIface st ifId fam dontDelete).records := by
  unfold cleanDiscoveredOnIface
  simp only [List.mem_filterMap]
  constructor
  · intro hr
    exact ⟨r, hr, cleanStep_of_other_family hfam⟩
  · rintro ⟨a, ha, hfa⟩
    by_cases ht : cleanTarget ifId fam dontDelete a = true
    · have hafam : a.subnet.fam = fam := by
        unfold cleanTarget at ht
        simp only [Bool.and_eq_true, decide_eq_true_iff] at ht
        exact ht.1.2
      unfold cleanStep at hfa
      rw [if_pos ht] at hfa
      by_cases hany : a.ifaceIds.any (fun x => decide (x ≠ ifId)) = true
      · rw [if_pos hany] at hfa
        cases hfa
        exact absurd hafam hfam
      · rw [if_neg hany] at hfa
        cases hfa
    · unfold cleanStep at hfa
      rw [if_neg ht] at hfa
      cases hfa
      exact ha

theorem cleanDiscovered_family_frame_witness :
    (⟨1, some 300, .discovered, ⟨11, .v6, 256, 511⟩, [1]⟩ : SRec) ∈
      (cleanDiscoveredOnIface
        ⟨[⟨1, 5, .physical, some 1⟩],
         [⟨0, some 150, .discovered, ⟨10, .v4, 100, 200⟩, [1]⟩,
          ⟨1, some 300, .discovered, ⟨11, .v6, 256, 511⟩, [1]⟩], 2, 2⟩
        1 .v4 []).records :=
  (cleanDiscovered_family_frame
      ⟨[⟨1, 5, .physical, some 1⟩],
       [⟨0, some 150, .discovered, ⟨10, .v4, 100, 200⟩, [1]⟩,
        ⟨1, some 300, .discovered, ⟨11, .v6, 256, 511⟩, [1]⟩], 2, 2⟩
      1 .v4 [] ⟨1, some 300, .discovered, ⟨11, .v6, 256, 511⟩, [1]⟩
      (by decide)).mp (by decide)

theorem processAddr_ifaces (scope : Scope) (sn : Subnet) (ifId : Nat)
    (st : LeaseState) (a : Nat) :
    (processAddr scope sn ifId st a).ifaces = st.ifaces ∧
    (processAddr scope sn ifId st a).nextIfId = st.nextIfId := by
  unfold processAddr
  split
  · split <;> exact ⟨rfl, rfl⟩
  · split <;> exact ⟨rfl, rfl⟩

/-- C8 counterexample: with an interface carrying hardware address 5 in scope
2 and no interface with that hardware address in scope 1, `updateLeases` on
scope 1 with lease (150, 5) creates no "unknown" placeholder (which the claim
demands, since no interface with that hardware address exists within the
given scope): it attaches the lease to the foreign interface instead —
resolution is global, as the test
`test_update_leases_new_ip_existing_mac_different_nodegroup` requires. -/
theorem updateLeases_global_mac_counterexample :
    (∀ i ∈ ([⟨1, 5, .physical, some 2⟩] : List Iface), ¬ (i.mac = 5 ∧ i.group = some 1)) ∧
    (updateLeases ⟨1, [⟨10, .v4, 100, 200⟩]⟩ [(150, 5)]
        ⟨[⟨1, 5, .physical, some 2⟩], [], 2, 0⟩).ifaces =
      [⟨1, 5, .physical, some 2⟩] ∧
    (updateLeases ⟨1, [⟨10, .v4, 100, 200⟩]⟩ [(150, 5)]
        ⟨[⟨1, 5, .physical, some 2⟩], [], 2, 0⟩).records =
      [⟨0, some 150, .discovered, ⟨10, .v4, 100, 200⟩, [1]⟩] := by
  refine ⟨by decide, ?_, ?_⟩ <;> rfl

/-- C8 (amended): for every lease pair whose address lies in a scope subnet,
the interface is resolved by hardware address globally (not restricted to the
given scope), and an "unknown" placeholder interface carrying that hardware
address is created only when no interface at all has that hardware
address. -/
theorem processLease_mac_resolution
    (scope : Scope) (st : LeaseState) (a mac : Nat) (sn : Subnet)
    (hsn : findSubnet scope a = some sn) :
    ((∃ i ∈ st.ifaces, i.mac = mac) →
      (processLease scope st (a, mac)).ifaces = st.ifaces)
    ∧ ((∀ i ∈ st.ifaces, i.mac ≠ mac) →
      (processLease scope st (a, mac)).ifaces =
        st.ifaces ++ [⟨st.nextIfId, mac, .unknown, none⟩]) := by
  constructor
  · rintro ⟨i, hi, hmac⟩
    have hfound : (st.ifaces.find? (fun j => decide (j.mac = mac))).isSome := by
      rw [List.find?_isSome]
      exact ⟨i, hi, by simp [hmac]⟩
    cases hf : st.ifaces.find? (fun j => decide (j.mac = mac)) with
    | none => rw [hf] at hfound; cases hfound
    | some j =>
      unfold processLease
      rw [hsn]
      simp only
      rw [hf]
      exact (processAddr_ifaces scope sn j.ifId st a).1
  · intro hnone
    have hf : st.ifaces.find? (fun j => decide (j.mac = mac)) = none := by
      rw [List.find?_eq_none]
      intro j hj
      simp [hnone j hj]
    unfold processLease
    rw [hsn]
    simp only
    rw [hf]
    exact (processAddr_ifaces scope sn st.nextIfId
      { st with ifaces := st.ifaces ++ [⟨st.nextIfId, mac, .unknown, none⟩],
                nextIfId := st.nextIfId + 1 } a).1

theorem processLease_mac_resolution_witness :
    (processLease ⟨1, [⟨10, .v4, 100, 200⟩]⟩ ⟨[], [], 0, 0⟩ (150, 7)).ifaces =
      [] ++ [⟨0, 7, .unknown, none⟩] :=
  (processLease_mac_resolution ⟨1, [⟨10, .v4, 100, 200⟩]⟩ ⟨[], [], 0, 0⟩ 150 7
      ⟨10, .v4, 100, 200⟩ (by decide)).2 (by decide)

/-- C9 counterexample: one lease address paired with two distinct unknown
hardware addresses yields two placeholder interfaces but a single shared
DISCOVERED record carrying the value (the claim demands a record of its own
per hardware address; the test `test_update_leases_one_ip_two_mac` asserts
exactly one record exists). -/
theorem updateLeases_shared_record_counterexample :
    (updateLeases ⟨1, [⟨10, .v4, 100, 200⟩]⟩ [(150, 7), (150, 8)] ⟨[], [], 0, 0⟩).records =
      [⟨0, some 150, .discovered, ⟨10, .v4, 100, 200⟩, [0, 1]⟩] ∧
    (updateLeases ⟨1, [⟨10, .v4, 100, 200⟩]⟩ [(150, 7), (150, 8)] ⟨[], [], 0, 0⟩).ifaces =
      [⟨0, 7, .unknown, none⟩, ⟨1, 8, .unknown, none⟩] := by
  exact ⟨rfl, rfl⟩

/-- C9 (amended): when one lease address appears in the snapshot paired with
two distinct unknown hardware addresses, `updateLeases` gives each hardware
address its own placeholder interface, and the two share one DISCOVERED
record carrying that address value, so the address ends up attached to
several interfaces. -/
theorem updateLeases_one_ip_two_macs
    (sid gid lo hi a m1 m2 : Nat) (fam : Fam)
    (hlo : lo ≤ a) (hhi : a ≤ hi) (hmac : m1 ≠ m2) :
    (updateLeases ⟨gid, [⟨sid, fam, lo, hi⟩]⟩ [(a, m1), (a, m2)] ⟨[], [], 0, 0⟩).ifaces =
      [⟨0, m1, .unknown, none⟩, ⟨1, m2, .unknown, none⟩] ∧
    (updateLeases ⟨gid, [⟨sid, fam, lo, hi⟩]⟩ [(a, m1), (a, m2)] ⟨[], [], 0, 0⟩).records =
      [⟨0, some a, .discovered, ⟨sid, fam, lo, hi⟩, [0, 1]⟩] := by
  constructor <;>
    simp [updateLeases, removeLeases, clearStale, processLease, processAddr,
      findSubnet, subnetInScope, attachIface, hlo, hhi, hmac]

theorem contains_true_iff {l : List Nat} {a : Nat} : l.contains a = true ↔ a ∈ l :=
  List.elem_iff

theorem foldl_processLease_inv (scope : Scope) (P : LeaseState → Prop) :
    ∀ (ls : List (Nat × Nat)) (st2 : LeaseState),
      (∀ st3 l, l ∈ ls → P st3 → P (processLease scope st3 l)) → P st2 →
      P (ls.foldl (processLease scope) st2) := by
  intro ls
  induction ls with
  | nil =>
    intro st2 _ h
    exact h
  | cons l ls ih =>
    intro st2 hstep h
    exact ih _ (fun st3 l2 h2 => hstep st3 l2 (List.mem_cons_of_mem _ h2))
      (hstep st2 l (List.mem_cons_self _ _) h)

theorem mem_attachIface {rid0 ifId : Nat} {rs : List SRec} {r2 : SRec}
    (h : r2 ∈ attachIface rid0 ifId rs) :
    ∃ r0 ∈ rs, r2.rid = r0.rid ∧ r2.value = r0.value ∧ r2.subnet = r0.subnet := by
  unfold attachIface at h
  rw [List.mem_map] at h
  obtain ⟨r0, h0, he⟩ := h
  refine ⟨r0, h0, ?_⟩
  rw [← he]
  split <;> exact ⟨rfl, rfl, rfl⟩

theorem attachIface_exists {rid0 ifId : Nat} {rs : List SRec} {r0 : SRec} (h : r0 ∈ rs) :
    ∃ r2 ∈ attachIface rid0 ifId rs, r2.rid = r0.rid := by
  unfold attachIface
  refine ⟨if r0.rid = rid0 then { r0 with ifaceIds := r0.ifaceIds ++ [ifId] } else r0,
    List.mem_map.mpr ⟨r0, h, rfl⟩, ?_⟩
  split <;> rfl

theorem mem_setValue {rid0 a : Nat} {rs : List SRec} {r2 : SRec}
    (h : r2 ∈ setValue rid0 a rs) :
    ∃ r0 ∈ rs, r2.rid = r0.rid ∧ r2.subnet = r0.subnet ∧
      (r2.value = r0.value ∨ r2.value = some a) := by
  unfold setValue at h
  rw [List.mem_map] at h
  obtain ⟨r0, h0, he⟩ := h
  refine ⟨r0, h0, ?_⟩
  rw [← he]
  split
  · exact ⟨rfl, rfl, Or.inr rfl⟩
  · exact ⟨rfl, rfl, Or.inl rfl⟩

theorem setValue_exists {rid0 a : Nat} {rs : List SRec} {r0 : SRec} (h : r0 ∈ rs) :
    ∃ r2 ∈ setValue rid0 a rs, r2.rid = r0.rid := by
  unfold setValue
  refine ⟨if r0.rid = rid0 then { r0 with value := some a } else r0,
    List.mem_map.mpr ⟨r0, h, rfl⟩, ?_⟩
  split <;> rfl

theorem processAddr_value_frame (scope : Scope) (sn : Subnet) (ifId : Nat)
    (st : LeaseState) (a : Nat) (ridT : Nat) (snT : Subnet) (L : List Nat)
    (ha : a ∈ L)
    (h : (∀ r2 ∈ st.records, r2.rid = ridT →
        (r2.value = none ∨ ∃ a2 ∈ L, r2.value = some a2) ∧ r2.subnet = snT) ∧
      ridT < st.nextRid) :
    (∀ r2 ∈ (processAddr scope sn ifId st a).records, r2.rid = ridT →
        (r2.value = none ∨ ∃ a2 ∈ L, r2.value = some a2) ∧ r2.subnet = snT) ∧
      ridT < (processAddr scope sn ifId st a).nextRid := by
  obtain ⟨hf, hb⟩ := h
  unfold processAddr
  split
  · split
    · exact ⟨hf, hb⟩
    · refine ⟨?_, hb⟩
      intro r2 h2 hrid
      obtain ⟨r3, h3, he1, he2, he3⟩ := mem_attachIface h2
      obtain ⟨hv, hs⟩ := hf r3 h3 (he1 ▸ hrid)
      exact ⟨he2 ▸ hv, he3 ▸ hs⟩
  · split
    · refine ⟨?_, hb⟩
      intro r2 h2 hrid
      obtain ⟨r3, h3, he1, he2, he3⟩ := mem_setValue h2
      obtain ⟨hv, hs⟩ := hf r3 h3 (he1 ▸ hrid)
      refine ⟨?_, he2 ▸ hs⟩
      rcases he3 with he3 | he3
      · exact he3 ▸ hv
      · exact Or.inr ⟨a, ha, he3⟩
    · refine ⟨?_, Nat.lt_succ_of_lt hb⟩
      intro r2 h2 hrid
      rcases List.mem_append.mp h2 with h2 | h2
      · exact hf r2 h2 hrid
      · rw [List.mem_singleton] at h2
        subst h2
        simp at hrid
        omega

theorem processLease_value_frame (scope : Scope) (ridT : Nat) (snT : Subnet) (L : List Nat) :
    ∀ (st : LeaseState) (l : Nat × Nat), l.1 ∈ L →
      ((∀ r2 ∈ st.records, r2.rid = ridT →
          (r2.value = none ∨ ∃ a2 ∈ L, r2.value = some a2) ∧ r2.subnet = snT) ∧
        ridT < st.nextRid) →
      ((∀ r2 ∈ (processLease scope st l).records, r2.rid = ridT →
          (r2.value = none ∨ ∃ a2 ∈ L, r2.value = some a2) ∧ r2.subnet = snT) ∧
        ridT < (processLease scope st l).nextRid) := by
  intro st l ha h
  unfold processLease
  split
  · exact h
  · split
    · exact processAddr_value_frame _ _ _ _ _ _ _ _ ha h
    · exact processAddr_value_frame _ _ _ _ _ _ _ _ ha h

theorem processAddr_rid_present (scope : Scope) (sn : Subnet) (ifId : Nat)
    (st : LeaseState) (a : Nat) (ridT : Nat)
    (h : ∃ r2 ∈ st.records, r2.rid = ridT) :
    ∃ r2 ∈ (processAddr scope sn ifId st a).records, r2.rid = ridT := by
  unfold processAddr
  split
  · split
    · exact h
    · obtain ⟨r2, h2, hrid⟩ := h
      obtain ⟨r3, h3, he⟩ := attachIface_exists h2
      exact ⟨r3, h3, he ▸ hrid⟩
  · split
    · obtain ⟨r2, h2, hrid⟩ := h
      obtain ⟨r3, h3, he⟩ := setValue_exists h2
      exact ⟨r3, h3, he ▸ hrid⟩
    · obtain ⟨r2, h2, hrid⟩ := h
      exact ⟨r2, List.mem_append.mpr (Or.inl h2), hrid⟩

theorem processLease_rid_present (scope : Scope) (ridT : Nat) :
    ∀ (st : LeaseState) (l : Nat × Nat),
      (∃ r2 ∈ st.records, r2.rid = ridT) →
      ∃ r2 ∈ (processLease scope st l).records, r2.rid = ridT := by
  intro st l h
  unfold processLease
  split
  · exact h
  · split
    · exact processAddr_rid_present _ _ _ _ _ _ h
    · exact processAddr_rid_present _ _ _ _ _ _ h

theorem processAddr_rid_absent (scope : Scope) (sn : Subnet) (ifId : Nat)
    (st : LeaseState) (a : Nat) (ridT : Nat)
    (h : (¬ ∃ r2 ∈ st.records, r2.rid = ridT) ∧ ridT < st.nextRid) :
    (¬ ∃ r2 ∈ (processAddr scope sn ifId st a).records, r2.rid = ridT) ∧
      ridT < (processAddr scope sn ifId st a).nextRid := by
  obtain ⟨hn, hb⟩ := h
  unfold processAddr
  split
  · split
    · exact ⟨hn, hb⟩
    · refine ⟨?_, hb⟩
      rintro ⟨r2, h2, hrid⟩
      obtain ⟨r0, h0, he1, _, _⟩ := mem_attachIface h2
      exact hn ⟨r0, h0, he1 ▸ hrid⟩
  · split
    · refine ⟨?_, hb⟩
      rintro ⟨r2, h2, hrid⟩
      obtain ⟨r0, h0, he1, _, _⟩ := mem_setValue h2
      exact hn ⟨r0, h0, he1 ▸ hrid⟩
    · refine ⟨?_, Nat.lt_succ_of_lt hb⟩
      rintro ⟨r2, h2, hrid⟩
      rcases List.mem_append.mp h2 with h2 | h2
      · exact hn ⟨r2, h2, hrid⟩
      · rw [List.mem_singleton] at h2
        subst h2
        simp at hrid
        omega

theorem processLease_rid_absent (scope : Scope) (ridT : Nat) :
    ∀ (st : LeaseState) (l : Nat × Nat),
      ((¬ ∃ r2 ∈ st.records, r2.rid = ridT) ∧ ridT < st.nextRid) →
      ((¬ ∃ r2 ∈ (processLease scope st l).records, r2.rid = ridT) ∧
        ridT < (processLease scope st l).nextRid) := by
  intro st l h
  unfold processLease
  split
  · exact h
  · split
    · exact processAddr_rid_absent _ _ _ _ _ _ h
    · exact processAddr_rid_absent _ _ _ _ _ _ h

theorem processLease_iface_present (scope : Scope) (S : List Nat) :
    ∀ (st : LeaseState) (l : Nat × Nat),
      (∃ i ∈ st.ifaces, i.ifId ∈ S) →
      ∃ i ∈ (processLease scope st l).ifaces, i.ifId ∈ S := by
  intro st l h
  unfold processLease
  split
  · exact h
  · split
    · rw [(processAddr_ifaces _ _ _ _ _).1]
      exact h
    · rw [(processAddr_ifaces _ _ _ _ _).1]
      obtain ⟨i, hi, hS⟩ := h
      exact ⟨i, List.mem_append.mpr (Or.inl hi), hS⟩

theorem processLease_iface_absent (scope : Scope) (S : List Nat) :
    ∀ (st : LeaseState) (l : Nat × Nat),
      ((¬ ∃ i ∈ st.ifaces, i.ifId ∈ S) ∧ ∀ x ∈ S, x < st.nextIfId) →
      ((¬ ∃ i ∈ (processLease scope st l).ifaces, i.ifId ∈ S) ∧
        ∀ x ∈ S, x < (processLease scope st l).nextIfId) := by
  intro st l h
  obtain ⟨hn, hb⟩ := h
  unfold processLease
  split
  · exact ⟨hn, hb⟩
  · split
    · constructor
      · rw [(processAddr_ifaces _ _ _ _ _).1]
        exact hn
      · intro x hx
        rw [(processAddr_ifaces _ _ _ _ _).2]
        exact hb x hx
    · constructor
      · rw [(processAddr_ifaces _ _ _ _ _).1]
        rintro ⟨i, hi, hS⟩
        rcases List.mem_append.mp hi with hi | hi
        · exact hn ⟨i, hi, hS⟩
        · rw [List.mem_singleton] at hi
          subst hi
          have := hb _ hS
          simp at this
      · intro x hx
        rw [(processAddr_ifaces _ _ _ _ _).2]
        exact Nat.lt_succ_of_lt (hb x hx)

theorem processLease_iface_mono (scope : Scope) (st : LeaseState) (l : Nat × Nat)
    {i : Iface} (hi : i ∈ st.ifaces) : i ∈ (processLease scope st l).ifaces := by
  unfold processLease
  split
  · exact hi
  · split
    · rw [(processAddr_ifaces _ _ _ _ _).1]
      exact hi
    · rw [(processAddr_ifaces _ _ _ _ _).1]
      exact List.mem_append.mpr (Or.inl hi)

theorem processLease_iface_src (scope : Scope) (st : LeaseState) (l : Nat × Nat) :
    ∀ i ∈ (processLease scope st l).ifaces, i ∈ st.ifaces ∨ i.kind = .unknown := by
  intro i hi
  unfold processLease at hi
  split at hi
  · exact Or.inl hi
  · split at hi
    · rw [(processAddr_ifaces _ _ _ _ _).1] at hi
      exact Or.inl hi
    · rw [(processAddr_ifaces _ _ _ _ _).1] at hi
      rcases List.mem_append.mp hi with hi | hi
      · exact Or.inl hi
      · rw [List.mem_singleton] at hi
        subst hi
        exact Or.inr rfl

theorem staleRecord_iff {scope : Scope} {leases : List (Nat × Nat)} {ifaces : List Iface}
    {r : SRec} :
    staleRecord scope leases ifaces r = true ↔
      r.kind = .discovered ∧ subnetInScope scope r.subnet = true ∧
        (∃ a, r.value = some a ∧ a ∉ leaseAddrs leases) ∧
        ∃ i ∈ ifaces, i.ifId ∈ r.ifaceIds ∧ unknownOrPhysical i.kind = true := by
  unfold staleRecord
  cases hv : r.value <;>
    simp [hv, and_assoc, List.any_eq_true, contains_true_iff]

theorem refsOnlyUnknown_of (ifaces : List Iface) (r : SRec)
    (h : ∀ i ∈ ifaces, i.ifId ∈ r.ifaceIds → i.kind = .unknown) :
    refsOnlyUnknown ifaces r = true := by
  unfold refsOnlyUnknown
  rw [List.all_eq_true]
  intro i hi
  cases hcb : r.ifaceIds.contains i.ifId
  · simp [hcb]
  · have hm : i.ifId ∈ r.ifaceIds := contains_true_iff.mp hcb
    simp [hcb, h i hi hm]

theorem mem_clearStale {scope : Scope} {leases : List (Nat × Nat)} {ifaces : List Iface}
    {rs : List SRec} {r2 : SRec} :
    r2 ∈ clearStale scope leases ifaces rs ↔
      ∃ r0 ∈ rs, droppedRecord scope leases ifaces r0 = false ∧
        r2 = (if staleRecord scope leases ifaces r0 then { r0 with value := none }
              else r0) := by
  unfold clearStale
  rw [List.mem_map]
  constructor
  · rintro ⟨r3, h3, he⟩
    obtain ⟨h3r, h3d⟩ := List.mem_filter.mp h3
    refine ⟨r3, h3r, ?_, he.symm⟩
    rwa [Bool.not_eq_true'] at h3d
  · rintro ⟨r0, h0, hd, he⟩
    refine ⟨r0, List.mem_filter.mpr ⟨h0, ?_⟩, he.symm⟩
    rw [Bool.not_eq_true']
    exact hd

theorem removeLeases_value_frame (scope : Scope) (leases : List (Nat × Nat))
    (st : LeaseState) (hnd : (st.records.map (·.rid)).Nodup)
    {r : SRec} (hr : r ∈ st.records)
    (hstale : staleRecord scope leases st.ifaces r = true) :
    ∀ r2 ∈ (removeLeases scope leases st).records, r2.rid = r.rid →
      r2.value = none ∧ r2.subnet = r.subnet := by
  intro r2 h2 hrid
  have h2' : r2 ∈ clearStale scope leases st.ifaces st.records := h2
  rw [mem_clearStale] at h2'
  obtain ⟨r0, h0, hd, he⟩ := h2'
  have hrid0 : r2.rid = r0.rid := by
    rw [he]
    split <;> rfl
  have hre : r = r0 := List.inj_on_of_nodup_map hnd hr h0 (by rw [← hrid]; exact hrid0)
  subst hre
  rw [he, if_pos hstale]
  exact ⟨rfl, rfl⟩

theorem removeLeases_presence (scope : Scope) (leases : List (Nat × Nat))
    (st : LeaseState) (hnd : (st.records.map (·.rid)).Nodup)
    {r : SRec} (hr : r ∈ st.records)
    (hstale : staleRecord scope leases st.ifaces r = true) :
    (∃ r2 ∈ (removeLeases scope leases st).records, r2.rid = r.rid) ↔
      ∃ i ∈ st.ifaces, i.ifId ∈ r.ifaceIds ∧ i.kind ≠ .unknown := by
  constructor
  · rintro ⟨r2, h2, hrid⟩
    have h2' : r2 ∈ clearStale scope leases st.ifaces st.records := h2
    rw [mem_clearStale] at h2'
    obtain ⟨r0, h0, hd, he⟩ := h2'
    have hrid0 : r2.rid = r0.rid := by
      rw [he]
      split <;> rfl
    have hre : r = r0 := List.inj_on_of_nodup_map hnd hr h0 (by rw [← hrid]; exact hrid0)
    subst hre
    unfold droppedRecord at hd
    rw [hstale, Bool.true_and] at hd
    unfold refsOnlyUnknown at hd
    rw [List.all_eq_false] at hd
    obtain ⟨i, hi, hp⟩ := hd
    rw [Bool.not_eq_true, Bool.or_eq_false_iff] at hp
    obtain ⟨hp1, hp2⟩ := hp
    rw [Bool.not_eq_false'] at hp1
    refine ⟨i, hi, contains_true_iff.mp hp1, ?_⟩
    intro hk
    rw [hk] at hp2
    simp at hp2
  · rintro ⟨i, hi, hm, hk⟩
    have hro : refsOnlyUnknown st.ifaces r = false := by
      unfold refsOnlyUnknown
      rw [List.all_eq_false]
      refine ⟨i, hi, ?_⟩
      rw [Bool.not_eq_true, Bool.or_eq_false_iff]
      constructor
      · rw [Bool.not_eq_false']
        exact contains_true_iff.mpr hm
      · exact decide_eq_false hk
    have hd : droppedRecord scope leases st.ifaces r = false := by
      unfold droppedRecord
      rw [hstale, Bool.true_and]
      exact hro
    refine ⟨if staleRecord scope leases st.ifaces r then { r with value := none } else r,
      ?_, ?_⟩
    · show _ ∈ clearStale scope leases st.ifaces st.records
      rw [mem_clearStale]
      exact ⟨r, hr, hd, rfl⟩
    · split <;> rfl

theorem removeLeases_keeps_nonUnknown (scope : Scope) (leases : List (Nat × Nat))
    (st : LeaseState) {i : Iface} (hi : i ∈ st.ifaces) (hk : i.kind ≠ .unknown) :
    i ∈ (removeLeases scope leases st).ifaces := by
  show i ∈ st.ifaces.filter (fun j => ! orphanUnknown scope leases st j)
  rw [List.mem_filter]
  refine ⟨hi, ?_⟩
  rw [Bool.not_eq_true']
  unfold orphanUnknown
  rw [decide_eq_false hk]
  rfl

theorem removeLeases_orphan (scope : Scope) (leases : List (Nat × Nat))
    (st : LeaseState) (hndI : (st.ifaces.map (·.ifId)).Nodup)
    {i : Iface} (hi : i ∈ st.ifaces) (hk : i.kind = .unknown)
    (htrig : ∃ r2 ∈ st.records, i.ifId ∈ r2.ifaceIds)
    (hall : ∀ r2 ∈ st.records, i.ifId ∈ r2.ifaceIds →
      staleRecord scope leases st.ifaces r2 = true ∧
        refsOnlyUnknown st.ifaces r2 = true) :
    ∀ i2 ∈ (removeLeases scope leases st).ifaces, i2.ifId ≠ i.ifId := by
  have horph : orphanUnknown scope leases st i = true := by
    unfold orphanUnknown
    rw [Bool.and_eq_true, Bool.and_eq_true]
    refine ⟨⟨decide_eq_true hk, ?_⟩, ?_⟩
    · rw [List.any_eq_true]
      obtain ⟨r2, h2, hm⟩ := htrig
      refine ⟨r2, h2, ?_⟩
      rw [Bool.and_eq_true]
      exact ⟨(hall r2 h2 hm).1, contains_true_iff.mpr hm⟩
    · rw [List.all_eq_true]
      intro r3 h3
      rw [mem_clearStale] at h3
      obtain ⟨r0, h0, hd, he⟩ := h3
      have hsame : r3.ifaceIds = r0.ifaceIds := by
        rw [he]
        split <;> rfl
      show (! r3.ifaceIds.contains i.ifId) = true
      rw [Bool.not_eq_true', hsame]
      cases hcb : r0.ifaceIds.contains i.ifId
      · rfl
      · exfalso
        have hm : i.ifId ∈ r0.ifaceIds := contains_true_iff.mp hcb
        obtain ⟨hs2, hro2⟩ := hall r0 h0 hm
        have hdr : droppedRecord scope leases st.ifaces r0 = true := by
          unfold droppedRecord
          rw [hs2, hro2]
          rfl
        rw [hdr] at hd
        cases hd
  intro i2 h2 he
  have h2' := List.mem_filter.mp
    (show i2 ∈ st.ifaces.filter (fun j => ! orphanUnknown scope leases st j) from h2)
  have hii : i2 = i := List.inj_on_of_nodup_map hndI h2'.1 hi he
  rw [hii] at h2'
  rw [horph] at h2'
  simp at h2'

/-- C3 counterexample: two concrete runs refute the claim's universal
"cleared to empty".  First, a stale DISCOVERED record attached only to a bond
interface is left untouched — value and all — because the clearing pass only
examines records on "unknown" or physical interfaces (spec 4.2 step 1).
Second, on a physical interface, a record whose value 150 is absent from the
snapshot is cleared but then reused by the snapshot's own pair (160, 5)
(spec 4.2 step 2 "find or create" and step 4 reuse), ending with value 160,
not empty. -/
theorem updateLeases_stale_not_cleared_counterexample :
    ((updateLeases ⟨1, [⟨10, .v4, 100, 200⟩]⟩ []
        ⟨[⟨1, 5, .bond, some 1⟩],
         [⟨0, some 150, .discovered, ⟨10, .v4, 100, 200⟩, [1]⟩], 2, 1⟩).records =
      [⟨0, some 150, .discovered, ⟨10, .v4, 100, 200⟩, [1]⟩] ∧
      (150 : Nat) ∉ leaseAddrs []) ∧
    ((updateLeases ⟨1, [⟨10, .v4, 100, 200⟩]⟩ [(160, 5)]
        ⟨[⟨1, 5, .physical, some 1⟩],
         [⟨0, some 150, .discovered, ⟨10, .v4, 100, 200⟩, [1]⟩], 2, 1⟩).records =
      [⟨0, some 160, .discovered, ⟨10, .v4, 100, 200⟩, [1]⟩] ∧
      (150 : Nat) ∉ leaseAddrs [(160, 5)]) :=
  ⟨⟨rfl, by decide⟩, ⟨rfl, by decide⟩⟩

/-- C3 (amended): after `updateLeases scope leases st` on a well-formed
state, every DISCOVERED record under the scope attached to an "unknown" or
physical interface whose value does not appear in the snapshot keeps its
original subnet link and ends with its value cleared to empty unless a pair
of the snapshot has reused the emptied record, in which case it carries that
pair's address; the record is retained exactly when an interface other than
an "unknown" placeholder still references it, and deleted otherwise; and an
"unknown" placeholder interface all of whose records are stale and
placeholder-only — left with no remaining address records — is deleted as
well. -/
theorem updateLeases_clears_stale_records
    (scope : Scope) (leases : List (Nat × Nat)) (st : LeaseState) (hwf : wfState st)
    (r : SRec) (hr : r ∈ st.records) (av : Nat)
    (hkind : r.kind = .discovered) (hsub : subnetInScope scope r.subnet = true)
    (hval : r.value = some av) (hnl : av ∉ leaseAddrs leases)
    (hattach : ∃ i ∈ st.ifaces, i.ifId ∈ r.ifaceIds ∧ unknownOrPhysical i.kind = true) :
    (∀ r2 ∈ (updateLeases scope leases st).records, r2.rid = r.rid →
        (r2.value = none ∨ ∃ a2 ∈ leaseAddrs leases, r2.value = some a2) ∧
          r2.subnet = r.subnet)
    ∧ ((∃ r2 ∈ (updateLeases scope leases st).records, r2.rid = r.rid) ↔
        (∃ i ∈ (updateLeases scope leases st).ifaces, i.ifId ∈ r.ifaceIds ∧
          i.kind ≠ .unknown))
    ∧ (∀ i ∈ st.ifaces, i.kind = .unknown →
        (∃ r2 ∈ st.records, i.ifId ∈ r2.ifaceIds) →
        (∀ r2 ∈ st.records, i.ifId ∈ r2.ifaceIds →
          r2.kind = .discovered ∧ subnetInScope scope r2.subnet = true ∧
            (∃ a2, r2.value = some a2 ∧ a2 ∉ leaseAddrs leases) ∧
            ∀ i2 ∈ st.ifaces, i2.ifId ∈ r2.ifaceIds → i2.kind = .unknown) →
        ∀ i2 ∈ (updateLeases scope leases st).ifaces, i2.ifId ≠ i.ifId) := by
  obtain ⟨hwf1, hwf2, hwf3, hwf4, hwf5⟩ := hwf
  have hstale : staleRecord scope leases st.ifaces r = true :=
    staleRecord_iff.mpr ⟨hkind, hsub, ⟨av, hval, hnl⟩, hattach⟩
  have hup : updateLeases scope leases st =
      leases.foldl (processLease scope) (removeLeases scope leases st) := rfl
  have hrb : r.rid < (removeLeases scope leases st).nextRid := hwf2 r hr
  refine ⟨?_, ?_, ?_⟩
  · rw [hup]
    refine (foldl_processLease_inv scope
      (fun st2 => (∀ r2 ∈ st2.records, r2.rid = r.rid →
          (r2.value = none ∨ ∃ a2 ∈ leaseAddrs leases, r2.value = some a2) ∧
            r2.subnet = r.subnet) ∧ r.rid < st2.nextRid)
      leases _ ?_ ⟨?_, hrb⟩).1
    · intro st3 l hl hP
      exact processLease_value_frame scope r.rid r.subnet (leaseAddrs leases) st3 l
        (List.mem_map.mpr ⟨l, hl, rfl⟩) hP
    · intro r2 h2 hrid
      obtain ⟨hv, hs⟩ := removeLeases_value_frame scope leases st hwf5 hr hstale r2 h2 hrid
      exact ⟨Or.inl hv, hs⟩
  · rw [hup]
    by_cases hcase : ∃ r2 ∈ (removeLeases scope leases st).records, r2.rid = r.rid
    · obtain ⟨i, hi, him, hik⟩ :=
        (removeLeases_presence scope leases st hwf5 hr hstale).mp hcase
      refine iff_of_true ?_ ?_
      · exact foldl_processLease_inv scope
          (fun st2 => ∃ r2 ∈ st2.records, r2.rid = r.rid) leases _
          (fun st3 l _ => processLease_rid_present scope r.rid st3 l) hcase
      · have hi1 : i ∈ (removeLeases scope leases st).ifaces :=
          removeLeases_keeps_nonUnknown scope leases st hi hik
        have hi2 := foldl_processLease_inv scope
          (fun st2 => i ∈ st2.ifaces) leases _
          (fun st3 l _ h => processLease_iface_mono scope st3 l h) hi1
        exact ⟨i, hi2, him, hik⟩
    · have hsrc : ∀ j ∈ (leases.foldl (processLease scope)
          (removeLeases scope leases st)).ifaces,
          j ∈ (removeLeases scope leases st).ifaces ∨ j.kind = .unknown := by
        refine foldl_processLease_inv scope
          (fun st2 => ∀ j ∈ st2.ifaces,
            j ∈ (removeLeases scope leases st).ifaces ∨ j.kind = .unknown)
          leases _ ?_ ?_
        · intro st3 l _ hP j hj
          rcases processLease_iface_src scope st3 l j hj with hj2 | hj2
          · exact hP j hj2
          · exact Or.inr hj2
        · intro j hj
          exact Or.inl hj
      refine iff_of_false ?_ ?_
      · exact (foldl_processLease_inv scope
          (fun st2 => (¬ ∃ r2 ∈ st2.records, r2.rid = r.rid) ∧ r.rid < st2.nextRid)
          leases _ (fun st3 l _ => processLease_rid_absent scope r.rid st3 l)
          ⟨hcase, hrb⟩).1
      · rintro ⟨i, hi, him, hik⟩
        rcases hsrc i hi with hi1 | hi1
        · have hi0 := (List.mem_filter.mp
            (show i ∈ st.ifaces.filter
              (fun j => ! orphanUnknown scope leases st j) from hi1)).1
          exact hcase ((removeLeases_presence scope leases st hwf5 hr hstale).mpr
            ⟨i, hi0, him, hik⟩)
        · exact hik hi1
  · intro i hi hk htrig hall
    have hall' : ∀ r2 ∈ st.records, i.ifId ∈ r2.ifaceIds →
        staleRecord scope leases st.ifaces r2 = true ∧
          refsOnlyUnknown st.ifaces r2 = true := by
      intro r2 h2 hm
      obtain ⟨hk2, hs2, hv2, hu2⟩ := hall r2 h2 hm
      refine ⟨staleRecord_iff.mpr ⟨hk2, hs2, hv2, ⟨i, hi, hm, ?_⟩⟩,
        refsOnlyUnknown_of st.ifaces r2 hu2⟩
      rw [hk]
      rfl
    have h0 := removeLeases_orphan scope leases st hwf4 hi hk htrig hall'
    have hib : i.ifId < (removeLeases scope leases st).nextIfId := hwf1 i hi
    have hres := (foldl_processLease_inv scope
      (fun st2 => (¬ ∃ i2 ∈ st2.ifaces, i2.ifId ∈ [i.ifId]) ∧
        ∀ x ∈ [i.ifId], x < st2.nextIfId) leases _
      (fun st3 l _ => processLease_iface_absent scope [i.ifId] st3 l)
      ⟨fun h => h0 h.choose h.choose_spec.1 (List.mem_singleton.mp h.choose_spec.2),
       fun x hx => (List.mem_singleton.mp hx) ▸ hib⟩).1
    intro i2 h2 he
    rw [hup] at h2
    exact hres ⟨i2, h2, List.mem_singleton.mpr he⟩

theorem updateLeases_clears_stale_records_witness :
    (∃ r2 ∈ (updateLeases ⟨1, [⟨10, .v4, 100, 200⟩]⟩ []
        ⟨[⟨1, 5, .physical, some 1⟩],
         [⟨0, some 150, .discovered, ⟨10, .v4, 100, 200⟩, [1]⟩], 2, 1⟩).records,
      r2.rid = 0) ↔
    (∃ i ∈ (updateLeases ⟨1, [⟨10, .v4, 100, 200⟩]⟩ []
        ⟨[⟨1, 5, .physical, some 1⟩],
         [⟨0, some 150, .discovered, ⟨10, .v4, 100, 200⟩, [1]⟩], 2, 1⟩).ifaces,
      i.ifId ∈ [1] ∧ i.kind ≠ .unknown) :=
  (updateLeases_clears_stale_records ⟨1, [⟨10, .v4, 100, 200⟩]⟩ []
    ⟨[⟨1, 5, .physical, some 1⟩],
     [⟨0, some 150, .discovered, ⟨10, .v4, 100, 200⟩, [1]⟩], 2, 1⟩
    (by decide) ⟨0, some 150, .discovered, ⟨10, .v4, 100, 200⟩, [1]⟩ (by decide) 150
    rfl rfl rfl (by decide) (by decide)).2.1

theorem updateLeases_one_ip_two_macs_witness :
    (updateLeases ⟨1, [⟨10, .v4, 100, 200⟩]⟩ [(150, 7), (150, 8)] ⟨[], [], 0, 0⟩).ifaces =
      [⟨0, 7, .unknown, none⟩, ⟨1, 8, .unknown, none⟩] :=
  (updateLeases_one_ip_two_macs 10 1 100 200 150 7 8 .v4
    (by decide) (by decide) (by decide)).1

end Lease

namespace Resolve

/-- An interface as the resolver sees it: identifier, kind, parent interfaces
(for composite kinds) and owning host (`none` for placeholder interfaces). -/
structure RIface where
  ifId : Nat
  kind : Lease.IfKind
  parents : List Nat
  owner : Option Nat
deriving DecidableEq

/-- A host: identifier, distinguished boot interface, and whether IPv4 is
administratively disabled for it. -/
structure Host where
  hid : Nat
  bootIf : Option Nat
  disableV4 : Bool
deriving DecidableEq

/-- An address record as the resolver sees it, with its creation order for
oldest-first tie-breaking. -/
structure RRec where
  rid : Nat
  value : Option Nat
  fam : Fam
  kind : AllocKind
  ifaceIds : List Nat
  created : Nat
deriving DecidableEq

/-- The settled graph the resolver reads. -/
structure RState where
  hosts : List Host
  ifaces : List RIface
  records : List RRec
deriving DecidableEq

def ownedBy (h : Host) (i : RIface) : Bool :=
  decide (i.owner = some h.hid)

def allParentsOwned (st : RState) (h : Host) (i : RIface) : Bool :=
  i.parents.all (fun p => st.ifaces.any (fun j => decide (j.ifId = p) && ownedBy h j))

def isComposite : Lease.IfKind → Bool
  | .bond => true
  | .bridge => true
  | _ => false

/-- Modelled from the spec: the interface precedence of section 4.3 (the
implementing source of `get_hostname_ip_mapping` is not in the snapshot),
as a rank where lower is stronger and `none` excludes the interface: a
composite containing the boot interface whose parents all belong to the host
beats the boot interface alone, which beats other fully-owned composites,
then other physical interfaces, then VLAN interfaces; a composite with a
foreign parent, or an interface not owned by the host, is ignored. -/
def ifaceRank (st : RState) (h : Host) (i : RIface) : Option Nat :=
  if ! ownedBy h i then none
  else if isComposite i.kind then
    if ! allParentsOwned st h i then none
    else if (match h.bootIf with
             | some b => decide (b ∈ i.parents)
             | none => false) then some 0
    else some 2
  else if h.bootIf = some i.ifId then some 1
  else match i.kind with
    | .physical => some 3
    | .vlan => some 4
    | _ => none

/-- Address-kind precedence within an interface (spec section 4.3). -/
def kindRank : AllocKind → Nat
  | .sticky => 0
  | .userReserved => 0
  | .auto => 1
  | .discovered => 2
  | .dhcp => 3

/-- One candidate answer: its precedence key (interface rank, kind rank,
creation order) and the address value. -/
structure Cand where
  irank : Nat
  krank : Nat
  created : Nat
  value : Nat
deriving DecidableEq

def candLt (c d : Cand) : Bool :=
  decide (c.irank < d.irank) ||
    (decide (c.irank = d.irank) && (decide (c.krank < d.krank) ||
      (decide (c.krank = d.krank) && decide (c.created < d.created))))

/-- All candidates for a host in one family: every non-empty record of the
family, through every qualifying interface it is attached to. -/
def candsFor (st : RState) (h : Host) (f : Fam) : List Cand :=
  st.records.foldr (fun r acc =>
    match r.value with
    | none => acc
    | some v =>
      if r.fam = f then
        (r.ifaceIds.foldr (fun x acc2 =>
          match st.ifaces.find? (fun i => decide (i.ifId = x)) with
          | none => acc2
          | some i =>
            match ifaceRank st h i with
            | none => acc2
            | some ir => ⟨ir, kindRank r.kind, r.created, v⟩ :: acc2) []) ++ acc
      else acc) []

/-- Strictly better candidates win; on ties the earlier-listed one is kept. -/
def pickBest : List Cand → Option Cand
  | [] => none
  | c :: cs =>
    match pickBest cs with
    | none => some c
    | some d => some (if candLt d c then d else c)

/-- Modelled from the spec: per-host per-family winner of section 4.3. -/
def resolveFam (st : RState) (h : Host) (f : Fam) : Option Nat :=
  (pickBest (candsFor st h f)).map (·.value)

/-- Modelled from the spec: the addresses published for one host — the
winning IPv4 address (unless IPv4 is disabled for the host) together with
the winning IPv6 address (spec section 4.3). -/
def resolveHost (st : RState) (h : Host) : List Nat :=
  (if h.disableV4 then [] else (resolveFam st h .v4).toList) ++
    (resolveFam st h .v6).toList

/-- Modelled from the spec: `resolveMapping` of section 4.3, host by host;
hosts with no resolvable address are omitted. -/
def resolveMapping (st : RState) : List (Nat × List Nat) :=
  st.hosts.foldr (fun h acc =>
    match resolveHost st h with
    | [] => acc
    | l => (h.hid, l) :: acc) []

/-- C4: for a host whose boot interface is a parent of a bond all of whose
parents belong to that host, the mapping contains only the bond's address for
the host even when every parent interface also holds a STICKY address; a bond
whose parents do not include the boot interface is passed over and the boot
interface's own address is returned instead. -/
theorem resolver_bond_priority
    (hid i1 i2 i3 ib v1 v2 v3 vb c1 c2 c3 c4 : Nat)
    (h12 : i1 ≠ i2) (h13 : i1 ≠ i3) (h23 : i2 ≠ i3)
    (h1b : i1 ≠ ib) (h2b : i2 ≠ ib) (h3b : i3 ≠ ib) :
    resolveHost
      ⟨[⟨hid, some i1, false⟩],
       [⟨i1, .physical, [], some hid⟩, ⟨i2, .physical, [], some hid⟩,
        ⟨ib, .bond, [i1, i2], some hid⟩],
       [⟨0, some v1, .v4, .sticky, [i1], c1⟩, ⟨1, some v2, .v4, .sticky, [i2], c2⟩,
        ⟨2, some vb, .v4, .sticky, [ib], c3⟩]⟩
      ⟨hid, some i1, false⟩ = [vb]
    ∧ resolveHost
      ⟨[⟨hid, some i1, false⟩],
       [⟨i1, .physical, [], some hid⟩, ⟨i2, .physical, [], some hid⟩,
        ⟨i3, .physical, [], some hid⟩, ⟨ib, .bond, [i2, i3], some hid⟩],
       [⟨0, some v1, .v4, .sticky, [i1], c1⟩, ⟨1, some v2, .v4, .sticky, [i2], c2⟩,
        ⟨2, some v3, .v4, .sticky, [i3], c3⟩, ⟨3, some vb, .v4, .sticky, [ib], c4⟩]⟩
      ⟨hid, some i1, false⟩ = [v1] := by
  constructor <;>
    simp [resolveHost, resolveFam, candsFor, pickBest, candLt, ifaceRank, ownedBy,
      allParentsOwned, isComposite, kindRank, h12, h13, h23, h1b, h2b, h3b,
      h12.symm, h13.symm, h23.symm, h1b.symm, h2b.symm, h3b.symm]

theorem resolver_bond_priority_witness :
    resolveHost
      ⟨[⟨0, some 1, false⟩],
       [⟨1, .physical, [], some 0⟩, ⟨2, .physical, [], some 0⟩,
        ⟨9, .bond, [1, 2], some 0⟩],
       [⟨0, some 41, .v4, .sticky, [1], 10⟩, ⟨1, some 42, .v4, .sticky, [2], 11⟩,
        ⟨2, some 49, .v4, .sticky, [9], 12⟩]⟩
      ⟨0, some 1, false⟩ = [49] :=
  (resolver_bond_priority 0 1 2 3 9 41 42 43 49 10 11 12 13
    (by decide) (by decide) (by decide) (by decide) (by decide) (by decide)).1

end Resolve

end Maas
